import Mathlib

/-!
Shallow embedding of `src/plugins/outputs/cloudwatchlogs/pusher.go`
(the CloudWatch Logs batch pusher) and proofs about it.

Modelling conventions:
* Go `time.Time` values are represented by `Option Int`: `none` is the Go
  zero instant (`IsZero`), `some ns` is an instant `ns` nanoseconds from the
  Unix epoch.  `timeNs` places both on one absolute timeline so that the
  source's `Sub`/`After`/`Before` comparisons can be written as integer
  comparisons.  Go's `Time.Sub` saturates at plus/minus (2^63-1) ns; every
  comparison the source makes with such a difference is against 24 hours,
  whose truth value saturation cannot change, so the model uses exact
  integer subtraction.
* Go strings are byte strings; messages are modelled as `List Nat` of bytes
  so that `len` and slicing have Go's byte semantics.
* `done` callbacks are identified by a `Nat` id; "invoking" callbacks means
  emitting their ids into a `fired` output list.
* The `CloudWatchLogsService` sink is an oracle: a `List Response` supplies
  the outcome of each successive `PutLogEvents` call (and, for
  `ResourceNotFoundException`, the outcomes of the two create calls).  A
  `send` that exhausts the oracle returns with `ok := false` and records no
  call: such a truncated execution is not used as evidence for anything.
* The dispatcher loop `start` is modelled one iteration per `Trigger`:
  an event arriving on the channel, or the flush timer firing (the shutdown
  branch flushes exactly like the timer branch before exiting, so it needs
  no separate trigger).  The flush timer itself is not modelled beyond the
  trigger; `resetFlushTimer` has no effect on any modelled state.
-/

namespace CwPusher

/-- Constant `reqSizeLimit` from the source: 1024*1024. -/
def reqSizeLimit : Nat := 1024 * 1024

/-- Constant `reqEventsLimit` from the source: 10000. -/
def reqEventsLimit : Nat := 10000

/-- Modelled from the spec: `msgSizeLimit` is defined in a file of this
repository outside `src/`; the spec fixes `MSG_SIZE_LIMIT = 262144` bytes. -/
def msgSizeLimit : Nat := 262144

/-- Modelled from the spec: `eventHeaderSize` is defined outside `src/`;
the spec fixes `EVENT_HEADER_SIZE = 26` bytes of per-event overhead. -/
def eventHeaderSize : Nat := 26

/-- Modelled from the spec: `truncatedSuffix` is defined outside `src/`;
the spec fixes only that it is a fixed suffix string appended inside the
limit.  Modelled as the 14 ASCII bytes of a fixed marker; no claim depends
on its contents, only on its length being at most `msgSizeLimit`. -/
def truncatedSuffix : List Nat := [91, 84, 114, 117, 110, 99, 97, 116, 101, 100, 46, 46, 46, 93]

/-- Nanoseconds per millisecond. -/
def nsPerMs : Int := 1000000

/-- Nanoseconds per hour (`time.Hour`). -/
def nsPerHour : Int := 3600 * 1000000000

/-- 24 hours in nanoseconds (`24 * time.Hour`). -/
def h24 : Int := 24 * nsPerHour

/-- Capacity of the ingress channel `eventsCh` (100 in `NewPusher`). -/
def chanCapacity : Nat := 100

/-- A producer event (`logs.LogEvent`): byte message, optional instant
(`none` = the Go zero instant), and the id of its `Done` callback. -/
structure LogEvent where
  message : List Nat
  time : Option Int
  id : Nat
deriving DecidableEq

/-- A wire event (`cloudwatchlogs.InputLogEvent`): byte message and a
timestamp in milliseconds since the epoch. -/
structure InputLogEvent where
  message : List Nat
  timestamp : Int
deriving DecidableEq

/-- Position of a Go `time.Time` on the absolute timeline, in nanoseconds
from the Unix epoch.  The zero instant (January 1, year 1 UTC) lies
62135596800 seconds before the epoch. -/
def timeNs : Option Int → Int
  | none => -62135596800000000000
  | some ns => ns

/-- Function `hasValidTime` from the source.  The source computes
`dt := now.Sub(e.Time()).Hours()` as a `float64` and rejects when
`dt > 24*14 || dt < -2`; the model compares the same duration in exact
integer nanoseconds, which is the same comparison scaled by the positive
constant `nsPerHour`. -/
def hasValidTime (now : Int) (e : LogEvent) : Bool :=
  match e.time with
  | none => true
  | some t =>
    if 336 * nsPerHour < now - t ∨ now - t < -(2 * nsPerHour) then false else true

/-- Function `AddEvent` from the source, restricted to its effect on the ingress
channel (modelled as a queue, oldest first): an event with an invalid time
is logged and dropped before reaching the channel; otherwise the blocking
submit eventually appends it.  No callback is ever invoked here. -/
def addEvent (now : Int) (e : LogEvent) (ch : List LogEvent) : List LogEvent :=
  if hasValidTime now e then ch ++ [e] else ch

/-- The drain loop inside `AddEventNonBlocking`: try to submit; while the
channel is full, receive (and thereby discard) the oldest pending event and
retry.  Structural recursion on the channel contents mirrors the loop,
which removes one element per failed iteration. -/
def drainAdd (e : LogEvent) : List LogEvent → List LogEvent
  | [] => [e]
  | x :: xs => if xs.length + 1 < chanCapacity then x :: (xs ++ [e]) else drainAdd e xs

/-- Function `AddEventNonBlocking` from the source: same admission check as
`AddEvent`, then the evicting drain loop.  No callback is ever invoked. -/
def addEventNonBlocking (now : Int) (e : LogEvent) (ch : List LogEvent) : List LogEvent :=
  if hasValidTime now e then drainAdd e ch else ch

/-- The pusher's dispatcher-owned state (the fields of `struct pusher`
that the dispatcher and sender read or write; `minT`/`maxT` store the
`timeNs` position of the stored `*time.Time`, `none` for `nil`). -/
structure PusherState where
  events : List InputLogEvent
  doneCallbacks : List Nat
  bufferredSize : Nat
  minT : Option Int
  maxT : Option Int
  needSort : Bool
  sequenceToken : Option String
  lastValidTime : Int
deriving DecidableEq

/-- The state a fresh pusher starts with (`NewPusher`). -/
def initState : PusherState :=
  { events := [], doneCallbacks := [], bufferredSize := 0, minT := none, maxT := none,
    needSort := false, sequenceToken := none, lastValidTime := 0 }

/-- Function `convertEvent` from the source.  Argument `nowMs` is `time.Now().UnixNano()/1000000`
at the moment of the call; Go's integer division truncates toward zero,
which is `Int.tdiv`. -/
def convertEvent (st : PusherState) (e : LogEvent) (nowMs : Int) : InputLogEvent × PusherState :=
  let message :=
    if msgSizeLimit < e.message.length then
      e.message.take (msgSizeLimit - truncatedSuffix.length) ++ truncatedSuffix
    else e.message
  match e.time with
  | none =>
    let t := if st.lastValidTime ≠ 0 then st.lastValidTime else nowMs
    (⟨message, t⟩, st)
  | some ns =>
    let t := Int.tdiv ns nsPerMs
    (⟨message, t⟩, { st with lastValidTime := t })

/-- The order `sort.Stable(ByTimestamp(...))` sorts by: `ByTimestamp.Less`
is the strict order on timestamps, and a stable sort with a strict `Less`
produces the unique stably-sorted arrangement, i.e. non-decreasing
timestamps with ties kept in input order.  That arrangement is what a
stable insertion sort with the reflexive order `tsLe` produces. -/
def tsLe (a b : InputLogEvent) : Prop := a.timestamp ≤ b.timestamp

instance : DecidableRel tsLe := fun a b => inferInstanceAs (Decidable (a.timestamp ≤ b.timestamp))

instance : IsTotal InputLogEvent tsLe := ⟨fun a b => Int.le_total a.timestamp b.timestamp⟩

instance : IsTrans InputLogEvent tsLe := ⟨fun _ _ _ h h' => le_trans h h'⟩

/-- The sort `sort.Stable(ByTimestamp(p.events))` from the source (see `tsLe`). -/
def sortByTimestamp (l : List InputLogEvent) : List InputLogEvent :=
  l.insertionSort tsLe

/-- Function `reset` from the source: empty the buffer and all its tracking fields;
`sequenceToken` and `lastValidTime` are kept. -/
def reset (st : PusherState) : PusherState :=
  { st with
    events := []
    doneCallbacks := []
    bufferredSize := 0
    needSort := false
    minT := none
    maxT := none }

/-- Outcome of one sink `Create*` call, as the source distinguishes them:
success (`nil` error), a `ResourceAlreadyExistsException`, or any other
error. -/
inductive CreateResult
  | ok
  | alreadyExists
  | err
deriving DecidableEq

/-- Function `createLogGroupAndStream` from the source, as a function of the two
create-call outcomes; returns `true` when it returns a `nil` error.  A
`ResourceAlreadyExistsException` from `CreateLogGroup` is tolerated; any
error from `CreateLogStream` (including already-exists) is returned. -/
def createLogGroupAndStream (group stream : CreateResult) : Bool :=
  match group with
  | .err => false
  | _ =>
    match stream with
    | .ok => true
    | _ => false

/-- One oracle entry: the sink's reaction to one `PutLogEvents` call.
`success` carries the optional `NextSequenceToken` (the
`RejectedLogEventsInfo` warnings only produce log lines and change no
modelled state, so they are not distinguished); `resourceNotFound` carries
the outcomes of the `CreateLogGroup` and `CreateLogStream` calls the
recovery path will make; `invalidSeqToken` carries the optional
`ExpectedSequenceToken`; `otherAwsError` is any other `awserr.Error`;
`nonAwsError` is any non-AWS error. -/
inductive Response
  | success (nextToken : Option String)
  | nonAwsError
  | resourceNotFound (group stream : CreateResult)
  | invalidSeqToken (expected : Option String)
  | otherAwsError
deriving DecidableEq

/-- One `PutLogEvents` request as constructed by `send`, together with the
buffer-tracking fields of the state at the moment of the call (`group` and
`stream` are fixed for the pusher's lifetime and omitted). -/
structure Call where
  events : List InputLogEvent
  sequenceToken : Option String
  bufferredSize : Nat
  minT : Option Int
  maxT : Option Int
deriving DecidableEq

instance : Inhabited Call := ⟨⟨[], none, 0, none, none⟩⟩

/-- Result of a `send` (or of one dispatcher step): the state afterwards,
the `PutLogEvents` calls issued (in order), the callback ids invoked (in
order), the unconsumed oracle suffix, and `ok := false` when the oracle was
exhausted mid-send (a truncated execution). -/
structure SendOut where
  state : PusherState
  calls : List Call
  fired : List Nat
  rs : List Response
  ok : Bool
deriving DecidableEq

/-- The events of the buffer after the `if p.needSort` sort at the top of
`send` (the sort is in place: the buffer keeps the sorted order). -/
def sortIfNeeded (st : PusherState) : List InputLogEvent :=
  if st.needSort then sortByTimestamp st.events else st.events

/-- The `PutLogEvents` request `send` constructs on entry, with the
buffer-tracking fields at that moment. -/
def entryCall (st : PusherState) : Call :=
  ⟨sortIfNeeded st, st.sequenceToken, st.bufferredSize, st.minT, st.maxT⟩

/-- Function `send` from the source.  Each `PutLogEvents` call consumes one oracle
entry; the recursive retries on `ResourceNotFoundException` (after a
successful `createLogGroupAndStream`) and on `InvalidSequenceTokenException`
(with an expected token) are the source's recursive `p.send()` calls. -/
def send : PusherState → List Response → SendOut
  | st, [] => ⟨st, [], [], [], false⟩
  | st, r :: rest =>
    let st1 : PusherState := { st with events := sortIfNeeded st }
    let call : Call := entryCall st
    match r with
    | .success nextToken =>
      let st2 : PusherState :=
        match nextToken with
        | some tok => { st1 with sequenceToken := some tok }
        | none => st1
      ⟨reset st2, [call], st2.doneCallbacks, rest, true⟩
    | .nonAwsError =>
      ⟨reset st1, [call], [], rest, true⟩
    | .resourceNotFound g s =>
      if createLogGroupAndStream g s then
        let o := send st1 rest
        ⟨o.state, call :: o.calls, o.fired, o.rs, o.ok⟩
      else
        ⟨st1, [call], [], rest, true⟩
    | .invalidSeqToken expected =>
      match expected with
      | none => ⟨st1, [call], [], rest, true⟩
      | some tok =>
        let o := send { st1 with sequenceToken := some tok } rest
        ⟨o.state, call :: o.calls, o.fired, o.rs, o.ok⟩
    | .otherAwsError =>
      ⟨reset st1, [call], [], rest, true⟩

/-- One wake-up of the dispatcher loop `start`: either an event received
from `eventsCh` (with the wall clock in ms at that moment, used only by
`convertEvent`'s fallback), or the flush timer firing.  The `ctx.Done()`
shutdown branch performs the same flush as the timer branch before
exiting the loop. -/
inductive Trigger
  | event (e : LogEvent) (nowMs : Int)
  | timer
deriving DecidableEq

/-- Result of running the dispatcher over a list of triggers.  `allCleared`
is `true` when every `send` performed returned with an empty buffer (no
send "returned with the buffer retained"). -/
structure RunOut where
  state : PusherState
  calls : List Call
  fired : List Nat
  rs : List Response
  ok : Bool
  allCleared : Bool
deriving DecidableEq

/-- The span check at the top of the event branch of `start`: flush first
when the incoming event time `et` would stretch the batch over 24 hours
(`et.Sub(*p.minT) > 24h` or `p.maxT.Sub(et) > 24h`, `nil` pointers giving
`false`). -/
def sendIfSpan (st : PusherState) (et : Int) (rs : List Response) : RunOut :=
  if (match st.minT with | some m => decide (h24 < et - m) | none => false) ||
     (match st.maxT with | some mx => decide (h24 < mx - et) | none => false) then
    let o := send st rs
    ⟨o.state, o.calls, o.fired, o.rs, o.ok, decide (o.state.events = [])⟩
  else
    ⟨st, [], [], rs, true, true⟩

/-- The size/count check before appending: flush first when the converted
event's `size` would push `bufferredSize` over `reqSizeLimit`, or the
buffer already holds `reqEventsLimit` events. -/
def sendIfFull (st : PusherState) (size : Nat) (rs : List Response) : RunOut :=
  if reqSizeLimit < st.bufferredSize + size ∨ st.events.length = reqEventsLimit then
    let o := send st rs
    ⟨o.state, o.calls, o.fired, o.rs, o.ok, decide (o.state.events = [])⟩
  else
    ⟨st, [], [], rs, true, true⟩

/-- The append block at the end of the event branch: set `needSort` when
the new timestamp is strictly below the last buffered one, append the wire
event and its callback, add its size, and update `minT`/`maxT` with the
incoming event time `et`. -/
def appendEvent (st : PusherState) (ce : InputLogEvent) (cbId : Nat) (size : Nat)
    (et : Int) : PusherState :=
  { st with
    events := st.events ++ [ce]
    doneCallbacks := st.doneCallbacks ++ [cbId]
    bufferredSize := st.bufferredSize + size
    needSort := st.needSort ||
      (match st.events.getLast? with
       | some last => decide (ce.timestamp < last.timestamp)
       | none => false)
    minT :=
      match st.minT with
      | none => some et
      | some m => if et < m then some et else some m
    maxT :=
      match st.maxT with
      | none => some et
      | some mx => if mx < et then some et else some mx }

/-- One iteration of the `select` in `start`. -/
def step (st : PusherState) (t : Trigger) (rs : List Response) : RunOut :=
  match t with
  | .timer =>
    if st.events.length ≠ 0 then
      let o := send st rs
      ⟨o.state, o.calls, o.fired, o.rs, o.ok, decide (o.state.events = [])⟩
    else
      ⟨st, [], [], rs, true, true⟩
  | .event e nowMs =>
    let et := timeNs e.time
    let o1 := sendIfSpan st et rs
    let ce := (convertEvent o1.state e nowMs).1
    let st2 := (convertEvent o1.state e nowMs).2
    let size := ce.message.length + eventHeaderSize
    let o2 := sendIfFull st2 size o1.rs
    ⟨appendEvent o2.state ce e.id size et, o1.calls ++ o2.calls, o1.fired ++ o2.fired,
      o2.rs, o1.ok && o2.ok, o1.allCleared && o2.allCleared⟩

/-- The dispatcher loop `start`, run over a finite list of triggers. -/
def run : PusherState → List Trigger → List Response → RunOut
  | st, [], rs => ⟨st, [], [], rs, true, true⟩
  | st, t :: ts, rs =>
    let o := step st t rs
    let o2 := run o.state ts o.rs
    ⟨o2.state, o.calls ++ o2.calls, o.fired ++ o2.fired, o2.rs, o.ok && o2.ok,
      o.allCleared && o2.allCleared⟩

/-! ### Concrete inputs used by witnesses and counterexamples -/

/-- A wall-clock instant in ns (2023-11-14T22:13:20Z), used as a realistic
event time: an event carrying it passes `hasValidTime` whenever the agent's
clock is within the admission window of it. -/
def tA : Int := 1700000000000000000

/-- The instant `tA` in milliseconds (`tA` is a whole number of ms). -/
def tAms : Int := 1700000000000

/-- An empty-message event at `tA`. -/
def evA : LogEvent := ⟨[], some tA, 0⟩

/-- The wire event `convertEvent` produces for `evA`. -/
def ceA : InputLogEvent := ⟨[], tAms⟩

/-- The trigger delivering `evA`. -/
def trigA : Trigger := Trigger.event evA 0

/-- An empty-message event 25 hours after `tA`. -/
def evB : LogEvent := ⟨[], some (tA + 25 * nsPerHour), 1⟩

/-- Dispatcher state after `n` deliveries of `evA` (no flush yet). -/
def stateN (n : Nat) : PusherState :=
  { events := List.replicate n ceA
    doneCallbacks := List.replicate n 0
    bufferredSize := 26 * n
    minT := if n = 0 then none else some tA
    maxT := if n = 0 then none else some tA
    needSort := false
    sequenceToken := none
    lastValidTime := if n = 0 then 0 else tAms }

/-- Trigger list for the request-limit violation: `reqEventsLimit + 1`
copies of `evA`, then a timer flush. -/
def trigsC1 : List Trigger := List.replicate reqEventsLimit trigA ++ [trigA, Trigger.timer]

/-- Oracle for the request-limit violation: both flush attempts get an
`InvalidSequenceTokenException` without an expected token, so `send`
returns with the buffer retained. -/
def rsC1 : List Response := [Response.invalidSeqToken none, Response.invalidSeqToken none]

/-- Trigger list for the span violation: `evA`, then `evB` 25 h later,
then a timer flush. -/
def trigsC2 : List Trigger := [trigA, Trigger.event evB 0, Trigger.timer]

/-- Oracle for the span violation (same retained-buffer responses). -/
def rsC2 : List Response := [Response.invalidSeqToken none, Response.invalidSeqToken none]

/-- A zero-instant event used by witnesses. -/
def evZero : LogEvent := ⟨[], none, 9⟩

/-- An event three hours in the future of the clock instant `0`. -/
def evFuture : LogEvent := ⟨[], some (3 * nsPerHour), 4⟩

/-- A full ingress channel (100 pending events). -/
def chFull : List LogEvent := List.replicate chanCapacity ⟨[], none, 5⟩

/-- A message one byte over `msgSizeLimit`. -/
def msgLong : List Nat := List.replicate (msgSizeLimit + 1) 0

/-- A small non-empty buffer state holding a stored sequence token, used
by the recovery witness. -/
def stW : PusherState :=
  { events := [⟨[1], 5⟩]
    doneCallbacks := [7]
    bufferredSize := 27
    minT := some 0
    maxT := some 0
    needSort := false
    sequenceToken := some "T"
    lastValidTime := 5 }

/-- The single call of the sorted-order witness trace. -/
def callW : Call := ⟨[ceA], none, 26, some tA, some tA⟩

/-- Sort invariant of the dispatcher: whenever `needSort` is unset, the
buffer is already in non-decreasing timestamp order. -/
def SortInv (st : PusherState) : Prop :=
  st.needSort = false → st.events.Sorted tsLe

/-! ### Basic lemmas about the sort and about `send`'s call shape -/

theorem sortByTimestamp_sorted (l : List InputLogEvent) : (sortByTimestamp l).Sorted tsLe :=
  List.sorted_insertionSort tsLe l

theorem sortByTimestamp_of_sorted {l : List InputLogEvent} (h : l.Sorted tsLe) :
    sortByTimestamp l = l :=
  h.insertionSort_eq

theorem sortByTimestamp_idem (l : List InputLogEvent) :
    sortByTimestamp (sortByTimestamp l) = sortByTimestamp l :=
  sortByTimestamp_of_sorted (sortByTimestamp_sorted l)

theorem sortIfNeeded_invariant {st st' : PusherState} (hev : st'.events = sortIfNeeded st)
    (hns : st'.needSort = st.needSort) : sortIfNeeded st' = sortIfNeeded st := by
  unfold sortIfNeeded
  rw [hns, hev]
  cases hb : st.needSort with
  | false => simp [sortIfNeeded, hb]
  | true => simp [sortIfNeeded, hb, sortByTimestamp_idem]

theorem send_calls_getD_zero (st : PusherState) (r : Response) (rest : List Response) :
    (send st (r :: rest)).calls.getD 0 default = entryCall st := by
  cases r with
  | success nextToken => cases nextToken <;> simp [send]
  | nonAwsError => simp [send]
  | resourceNotFound g s => by_cases h : createLogGroupAndStream g s <;> simp [send, h]
  | invalidSeqToken expected => cases expected <;> simp [send]
  | otherAwsError => simp [send]

theorem send_calls_length_pos (st : PusherState) (r : Response) (rest : List Response) :
    1 ≤ (send st (r :: rest)).calls.length := by
  cases r with
  | success nextToken => cases nextToken <;> simp [send]
  | nonAwsError => simp [send]
  | resourceNotFound g s => by_cases h : createLogGroupAndStream g s <;> simp [send, h]
  | invalidSeqToken expected => cases expected <;> simp [send]
  | otherAwsError => simp [send]

/-! ### Claim theorems -/

/-- Claim C3, counterexample: an event whose valid time is exactly the
epoch (0 ms) is recorded as `lastValidTime = 0`, which is the "nothing
recorded" sentinel, so a following zero-instant event gets the wall clock
(123) instead of the recorded value (0) — refuting the claim at this
input. -/
theorem convertEvent_epoch_cex :
    (convertEvent initState ⟨[], some 0, 0⟩ 999).2.lastValidTime = 0 ∧
    (convertEvent (convertEvent initState ⟨[], some 0, 0⟩ 999).2 ⟨[], none, 1⟩ 123).1.timestamp
      = 123 ∧
    decide ((convertEvent (convertEvent initState ⟨[], some 0, 0⟩ 999).2
        ⟨[], none, 1⟩ 123).1.timestamp =
      (convertEvent initState ⟨[], some 0, 0⟩ 999).2.lastValidTime) = false := by
  decide

/-- Claim C3, amended: a zero-instant event gets `lastValidTime` when that
carry is non-zero and the wall clock otherwise (the carry is unchanged); an
event with a valid time gets that time in milliseconds, truncated toward
zero (floor for times at or after the epoch), and that value becomes the
new `lastValidTime` — so a valid time of exactly 0 ms is recorded but is
indistinguishable from no record. -/
theorem convertEvent_timestamp (st : PusherState) (e : LogEvent) (nowMs : Int) :
    ((convertEvent st e nowMs).1.timestamp, (convertEvent st e nowMs).2.lastValidTime) =
      match e.time with
      | none => (if st.lastValidTime ≠ 0 then st.lastValidTime else nowMs, st.lastValidTime)
      | some ns => (Int.tdiv ns nsPerMs, Int.tdiv ns nsPerMs) := by
  cases h : e.time <;> simp [convertEvent, h]

/-- Claim C5: an event is rejected exactly when it has a non-zero time
whose distance from `now` exceeds 14 days into the past or 2 hours into
the future; a zero-instant time is accepted; a rejected event leaves the
ingress channel untouched under both entry points (so it can never reach
the dispatcher, the sink, or its callback). -/
theorem hasValidTime_admission (now : Int) (e : LogEvent) (ch : List LogEvent) :
    (hasValidTime now e = false ↔
      ∃ t, e.time = some t ∧ (336 * nsPerHour < now - t ∨ now - t < -(2 * nsPerHour))) ∧
    (e.time = none → hasValidTime now e = true) ∧
    (hasValidTime now e = false →
      addEvent now e ch = ch ∧ addEventNonBlocking now e ch = ch) := by
  refine ⟨?_, ?_, ?_⟩
  · cases h : e.time with
    | none => simp [hasValidTime, h]
    | some t =>
      by_cases hc : 336 * nsPerHour < now - t ∨ now - t < -(2 * nsPerHour)
      · simp [hasValidTime, h, hc]
      · simp [hasValidTime, h, hc]
  · intro h
    simp [hasValidTime, h]
  · intro h
    constructor
    · simp [addEvent, h]
    · simp [addEventNonBlocking, h]

/-- Witness for C5 at a concrete rejected input (3 hours in the future of
the clock instant 0). -/
theorem hasValidTime_admission_witness :
    hasValidTime 0 evFuture = false ∧
    (addEvent 0 evFuture [] = [] ∧ addEventNonBlocking 0 evFuture [] = []) :=
  ⟨by decide, (hasValidTime_admission 0 evFuture []).2.2 (by decide)⟩

/-- Claim C6: on any other AWS-typed error and on any non-AWS error,
`send` clears the whole buffer (events, callbacks, size, min/max time,
sort flag) and fires no callback. -/
theorem send_nonrecoverable_clears (st : PusherState) (rest : List Response) :
    ((send st (Response.otherAwsError :: rest)).state.events = [] ∧
      (send st (Response.otherAwsError :: rest)).state.doneCallbacks = [] ∧
      (send st (Response.otherAwsError :: rest)).state.bufferredSize = 0 ∧
      (send st (Response.otherAwsError :: rest)).state.minT = none ∧
      (send st (Response.otherAwsError :: rest)).state.maxT = none ∧
      (send st (Response.otherAwsError :: rest)).state.needSort = false ∧
      (send st (Response.otherAwsError :: rest)).fired = []) ∧
    ((send st (Response.nonAwsError :: rest)).state.events = [] ∧
      (send st (Response.nonAwsError :: rest)).state.doneCallbacks = [] ∧
      (send st (Response.nonAwsError :: rest)).state.bufferredSize = 0 ∧
      (send st (Response.nonAwsError :: rest)).state.minT = none ∧
      (send st (Response.nonAwsError :: rest)).state.maxT = none ∧
      (send st (Response.nonAwsError :: rest)).state.needSort = false ∧
      (send st (Response.nonAwsError :: rest)).fired = []) := by
  constructor <;> simp [send, reset]

/-- Claim C7: with `InvalidSequenceTokenException`, `send` either returns
with the buffer retained (expected token absent: nothing fired, callbacks
kept, events kept up to the in-place sort) or adopts the expected token and
immediately retries the same events with the new token. -/
theorem send_invalidSequenceToken (st : PusherState) (tok : String) (r : Response)
    (rest : List Response) :
    ((send st (Response.invalidSeqToken none :: rest)).state =
        { st with events := sortIfNeeded st } ∧
      (send st (Response.invalidSeqToken none :: rest)).fired = [] ∧
      (send st (Response.invalidSeqToken none :: rest)).state.doneCallbacks =
        st.doneCallbacks) ∧
    ((send st (Response.invalidSeqToken (some tok) :: r :: rest)).state =
        (send { st with events := sortIfNeeded st, sequenceToken := some tok }
          (r :: rest)).state ∧
      ((send st (Response.invalidSeqToken (some tok) :: r :: rest)).calls.getD 1
          default).sequenceToken = some tok ∧
      ((send st (Response.invalidSeqToken (some tok) :: r :: rest)).calls.getD 1
          default).events =
        ((send st (Response.invalidSeqToken (some tok) :: r :: rest)).calls.getD 0
          default).events ∧
      2 ≤ (send st (Response.invalidSeqToken (some tok) :: r :: rest)).calls.length) := by
  have hcalls : (send st (Response.invalidSeqToken (some tok) :: r :: rest)).calls =
      entryCall st ::
        (send { st with events := sortIfNeeded st, sequenceToken := some tok }
          (r :: rest)).calls := by
    simp [send]
  have hsort : sortIfNeeded { st with events := sortIfNeeded st, sequenceToken := some tok }
      = sortIfNeeded st :=
    sortIfNeeded_invariant rfl rfl
  refine ⟨by simp [send], ?_, ?_, ?_, ?_⟩
  · simp [send]
  · rw [hcalls]
    simp only [List.getD_cons_succ]
    rw [send_calls_getD_zero]
    rfl
  · rw [hcalls]
    simp only [List.getD_cons_succ, List.getD_cons_zero]
    rw [send_calls_getD_zero]
    simpa [entryCall] using hsort
  · rw [hcalls]
    have := send_calls_length_pos
      { st with events := sortIfNeeded st, sequenceToken := some tok } r rest
    simp only [List.length_cons]
    omega

/-- Claim C8 helper: the drain loop appends when the channel has room. -/
theorem drainAdd_of_lt (e : LogEvent) {l : List LogEvent} (h : l.length < chanCapacity) :
    drainAdd e l = l ++ [e] := by
  cases l with
  | nil => simp [drainAdd]
  | cons x xs =>
    have hx : xs.length + 1 < chanCapacity := by simpa using h
    simp [drainAdd, hx]

/-- Claim C8: a time-valid event submitted through the non-blocking entry
point is always enqueued; when the channel is full the oldest pending
event (the head) is evicted to make room, and no callback is invoked for
it (the entry point invokes no callback at all). -/
theorem addEventNonBlocking_evicts (now : Int) (e : LogEvent) (ch : List LogEvent)
    (hv : hasValidTime now e = true) (hch : ch.length ≤ chanCapacity) :
    addEventNonBlocking now e ch =
      (if ch.length < chanCapacity then ch ++ [e] else ch.tail ++ [e]) ∧
    e ∈ addEventNonBlocking now e ch := by
  have hmain : addEventNonBlocking now e ch =
      (if ch.length < chanCapacity then ch ++ [e] else ch.tail ++ [e]) := by
    simp only [addEventNonBlocking, hv, if_true]
    by_cases h : ch.length < chanCapacity
    · rw [if_pos h, drainAdd_of_lt e h]
    · have hlen : ch.length = chanCapacity := le_antisymm hch (not_lt.1 h)
      cases ch with
      | nil => simp [chanCapacity] at hlen
      | cons x xs =>
        have hxs : xs.length + 1 = chanCapacity := by simpa using hlen
        have hlt : xs.length < chanCapacity := by omega
        rw [if_neg h]
        simp only [drainAdd, List.tail_cons]
        rw [if_neg (by omega), drainAdd_of_lt e hlt]
  refine ⟨hmain, ?_⟩
  rw [hmain]
  by_cases h : ch.length < chanCapacity <;> simp [h]

/-- Witness for C8 at a concrete full channel: the oldest pending event is
evicted and the new event lands at the back. -/
theorem addEventNonBlocking_evicts_witness :
    hasValidTime 0 evZero = true ∧ chFull.length ≤ chanCapacity ∧
    (addEventNonBlocking 0 evZero chFull =
        (if chFull.length < chanCapacity then chFull ++ [evZero]
          else chFull.tail ++ [evZero]) ∧
      evZero ∈ addEventNonBlocking 0 evZero chFull) :=
  ⟨by decide, by decide, addEventNonBlocking_evicts 0 evZero chFull (by decide) (by decide)⟩

/-- Claim C9 helper: the wire message, independent of timestamp handling. -/
theorem convertEvent_message_eq (st : PusherState) (e : LogEvent) (nowMs : Int) :
    (convertEvent st e nowMs).1.message =
      if msgSizeLimit < e.message.length then
        e.message.take (msgSizeLimit - truncatedSuffix.length) ++ truncatedSuffix
      else e.message := by
  cases h : e.time <;> simp [convertEvent, h]

/-- Claim C9: messages within the limit pass through unchanged; longer
messages become the first `msgSizeLimit - len(truncatedSuffix)` bytes
followed by the suffix, which has length exactly `msgSizeLimit` and ends
with the suffix. -/
theorem convertEvent_truncation (st : PusherState) (e : LogEvent) (nowMs : Int) :
    (e.message.length ≤ msgSizeLimit → (convertEvent st e nowMs).1.message = e.message) ∧
    (msgSizeLimit < e.message.length →
      (convertEvent st e nowMs).1.message =
        e.message.take (msgSizeLimit - truncatedSuffix.length) ++ truncatedSuffix ∧
      (convertEvent st e nowMs).1.message.length = msgSizeLimit ∧
      truncatedSuffix.IsSuffix (convertEvent st e nowMs).1.message) := by
  constructor
  · intro h
    rw [convertEvent_message_eq, if_neg (not_lt.2 h)]
  · intro h
    have hm := convertEvent_message_eq st e nowMs
    rw [if_pos h] at hm
    refine ⟨hm, ?_, ?_⟩
    · rw [hm]
      have h1 : msgSizeLimit = 262144 := rfl
      have h2 : truncatedSuffix.length = 14 := rfl
      simp only [List.length_append, List.length_take]
      omega
    · rw [hm]
      exact List.suffix_append _ _

/-- Witness for C9 at a message one byte over the limit. -/
theorem convertEvent_truncation_witness :
    msgSizeLimit < msgLong.length ∧
    (convertEvent initState ⟨msgLong, none, 0⟩ 7).1.message.length = msgSizeLimit :=
  ⟨by simp [msgLong],
    ((convertEvent_truncation initState ⟨msgLong, none, 0⟩ 7).2 (by simp [msgLong])).2.1⟩

/-- Claim C2, evaluated at a failing input: after `evA` is buffered, `evB`
(25 h later) triggers the span flush, the sink answers
`InvalidSequenceTokenException` without an expected token so `send` returns
with the buffer retained, and the dispatcher appends `evB` anyway.  At the
very next loop boundary the non-empty buffer spans 25 h, and the timer
flush then invokes `PutLogEvents` with `maxT - minT = 25h > 24h` —
contradicting the claim (and the source's own comment that a batch cannot
span more than 24 hours). -/
theorem span_bound_violation :
    ((run initState trigsC2 rsC2).calls.getD 1 default).events.length = 2 ∧
    ((run initState trigsC2 rsC2).calls.getD 1 default).minT = some tA ∧
    ((run initState trigsC2 rsC2).calls.getD 1 default).maxT =
      some (tA + 25 * nsPerHour) ∧
    (run initState trigsC2 rsC2).state.events.length = 2 ∧
    (run initState trigsC2 rsC2).state.minT = some tA ∧
    (run initState trigsC2 rsC2).state.maxT = some (tA + 25 * nsPerHour) ∧
    h24 < (tA + 25 * nsPerHour) - tA := by
  decide

/-- Claim C10: on `ResourceNotFoundException` with a successful
`createLogGroupAndStream`, `send` retries at once: the retried call carries
the same sequence token (never reset by the recovery path) and the same
events, and the retry starts from the same callbacks, buffered size and
sort flag (only the in-place sort may have rearranged the events list). -/
theorem send_resourceNotFound_retry (st : PusherState) (g s : CreateResult) (r : Response)
    (rest : List Response) (hc : createLogGroupAndStream g s = true) :
    (send st (Response.resourceNotFound g s :: r :: rest)).calls =
      entryCall st :: (send { st with events := sortIfNeeded st } (r :: rest)).calls ∧
    (send st (Response.resourceNotFound g s :: r :: rest)).state =
      (send { st with events := sortIfNeeded st } (r :: rest)).state ∧
    (send st (Response.resourceNotFound g s :: r :: rest)).fired =
      (send { st with events := sortIfNeeded st } (r :: rest)).fired ∧
    ((send st (Response.resourceNotFound g s :: r :: rest)).calls.getD 1
        default).sequenceToken = st.sequenceToken ∧
    ((send st (Response.resourceNotFound g s :: r :: rest)).calls.getD 1 default).events =
      ((send st (Response.resourceNotFound g s :: r :: rest)).calls.getD 0 default).events ∧
    ((send st (Response.resourceNotFound g s :: r :: rest)).calls.getD 1
        default).bufferredSize = st.bufferredSize ∧
    2 ≤ (send st (Response.resourceNotFound g s :: r :: rest)).calls.length := by
  have hcalls : (send st (Response.resourceNotFound g s :: r :: rest)).calls =
      entryCall st :: (send { st with events := sortIfNeeded st } (r :: rest)).calls := by
    simp [send, hc]
  have hsort : sortIfNeeded { st with events := sortIfNeeded st } = sortIfNeeded st :=
    sortIfNeeded_invariant rfl rfl
  refine ⟨hcalls, by simp [send, hc], by simp [send, hc], ?_, ?_, ?_, ?_⟩
  · rw [hcalls]
    simp only [List.getD_cons_succ]
    rw [send_calls_getD_zero]
    rfl
  · rw [hcalls]
    simp only [List.getD_cons_succ, List.getD_cons_zero]
    rw [send_calls_getD_zero]
    simpa [entryCall] using hsort
  · rw [hcalls]
    simp only [List.getD_cons_succ]
    rw [send_calls_getD_zero]
    rfl
  · rw [hcalls]
    have := send_calls_length_pos { st with events := sortIfNeeded st } r rest
    simp only [List.length_cons]
    omega

/-- Witness for C10 at a concrete state with a stored token: the retried
call presents the same token `some "T"`. -/
theorem send_resourceNotFound_retry_witness :
    createLogGroupAndStream CreateResult.alreadyExists CreateResult.ok = true ∧
    ((send stW (Response.resourceNotFound CreateResult.alreadyExists CreateResult.ok ::
        Response.success none :: [])).calls.getD 1 default).sequenceToken =
      stW.sequenceToken :=
  ⟨by decide,
    (send_resourceNotFound_retry stW CreateResult.alreadyExists CreateResult.ok
      (Response.success none) [] (by decide)).2.2.2.1⟩

/-! ### Sortedness of every `PutLogEvents` call (C4) -/

theorem sortIfNeeded_sorted {st : PusherState} (h : SortInv st) :
    (sortIfNeeded st).Sorted tsLe := by
  unfold sortIfNeeded
  cases hb : st.needSort with
  | false => simpa using h hb
  | true => simpa using sortByTimestamp_sorted st.events

theorem sorted_getLast?_le {l : List InputLogEvent} {x a : InputLogEvent}
    (hs : l.Sorted tsLe) (hx : l.getLast? = some x) (ha : a ∈ l) : tsLe a x := by
  induction l with
  | nil => cases ha
  | cons b t ihl =>
    cases t with
    | nil =>
      have hxb : b = x := by simpa using hx
      have hab : a = b := by simpa using ha
      subst hxb
      subst hab
      exact le_refl _
    | cons c u =>
      rw [List.getLast?_cons_cons] at hx
      rcases List.mem_cons.1 ha with rfl | hat
      · have hxm : x ∈ c :: u := by
          rcases List.mem_getLast?_eq_getLast (show x ∈ (c :: u).getLast? from hx) with
            ⟨hne, hxeq⟩
          rw [hxeq]
          exact List.getLast_mem hne
        exact (List.pairwise_cons.1 hs).1 x hxm
      · exact ihl hs.of_cons hx hat

theorem sorted_append_one {l : List InputLogEvent} {ce : InputLogEvent}
    (hs : l.Sorted tsLe) (h : ∀ a ∈ l, tsLe a ce) : (l ++ [ce]).Sorted tsLe :=
  List.pairwise_append.2 ⟨hs, List.pairwise_singleton _ _, by simpa using h⟩

theorem convertEvent_state_frame (st : PusherState) (e : LogEvent) (nowMs : Int) :
    (convertEvent st e nowMs).2.events = st.events ∧
    (convertEvent st e nowMs).2.needSort = st.needSort ∧
    (convertEvent st e nowMs).2.doneCallbacks = st.doneCallbacks ∧
    (convertEvent st e nowMs).2.bufferredSize = st.bufferredSize ∧
    (convertEvent st e nowMs).2.minT = st.minT ∧
    (convertEvent st e nowMs).2.maxT = st.maxT ∧
    (convertEvent st e nowMs).2.sequenceToken = st.sequenceToken := by
  cases h : e.time <;> simp [convertEvent, h]

theorem send_preserves_sortInv (rs : List Response) :
    ∀ st : PusherState, SortInv st →
      (∀ c ∈ (send st rs).calls, c.events.Sorted tsLe) ∧ SortInv (send st rs).state := by
  induction rs with
  | nil =>
    intro st h
    exact ⟨by simp [send], by simpa [send] using h⟩
  | cons r rest ih =>
    intro st h
    have hentry : (entryCall st).events.Sorted tsLe := sortIfNeeded_sorted h
    have hst1 : SortInv { st with events := sortIfNeeded st } :=
      fun _ => sortIfNeeded_sorted h
    cases r with
    | success nextToken =>
      cases nextToken with
      | none =>
        refine ⟨?_, ?_⟩
        · intro c hc
          simp [send] at hc
          rw [hc]
          exact hentry
        · intro _
          simp [send, reset]
      | some tok =>
        refine ⟨?_, ?_⟩
        · intro c hc
          simp [send] at hc
          rw [hc]
          exact hentry
        · intro _
          simp [send, reset]
    | nonAwsError =>
      refine ⟨?_, ?_⟩
      · intro c hc
        simp [send] at hc
        rw [hc]
        exact hentry
      · intro _
        simp [send, reset]
    | resourceNotFound g s =>
      by_cases hc : createLogGroupAndStream g s
      · have hrec := ih { st with events := sortIfNeeded st } hst1
        refine ⟨?_, ?_⟩
        · intro c hcm
          simp only [send, hc, if_true] at hcm
          rcases List.mem_cons.1 hcm with rfl | hmem
          · exact hentry
          · exact hrec.1 c hmem
        · simpa [send, hc] using hrec.2
      · refine ⟨?_, ?_⟩
        · intro c hcm
          simp [send, hc] at hcm
          rw [hcm]
          exact hentry
        · simpa [send, hc] using hst1
    | invalidSeqToken expected =>
      cases expected with
      | none =>
        refine ⟨?_, ?_⟩
        · intro c hcm
          simp [send] at hcm
          rw [hcm]
          exact hentry
        · simpa [send] using hst1
      | some tok =>
        have hst1' : SortInv { st with events := sortIfNeeded st, sequenceToken := some tok } :=
          fun _ => sortIfNeeded_sorted h
        have hrec := ih { st with events := sortIfNeeded st, sequenceToken := some tok } hst1'
        refine ⟨?_, ?_⟩
        · intro c hcm
          simp only [send] at hcm
          rcases List.mem_cons.1 hcm with rfl | hmem
          · exact hentry
          · exact hrec.1 c hmem
        · simpa [send] using hrec.2
    | otherAwsError =>
      refine ⟨?_, ?_⟩
      · intro c hc
        simp [send] at hc
        rw [hc]
        exact hentry
      · intro _
        simp [send, reset]

theorem sendIfSpan_sortInv (st : PusherState) (et : Int) (rs : List Response)
    (h : SortInv st) :
    (∀ c ∈ (sendIfSpan st et rs).calls, c.events.Sorted tsLe) ∧
      SortInv (sendIfSpan st et rs).state := by
  unfold sendIfSpan
  by_cases hif : ((match st.minT with | some m => decide (h24 < et - m) | none => false) ||
      (match st.maxT with | some mx => decide (h24 < mx - et) | none => false)) = true
  · simpa [hif] using send_preserves_sortInv rs st h
  · simp only [Bool.not_eq_true] at hif
    simpa [hif] using h

theorem sendIfFull_sortInv (st : PusherState) (size : Nat) (rs : List Response)
    (h : SortInv st) :
    (∀ c ∈ (sendIfFull st size rs).calls, c.events.Sorted tsLe) ∧
      SortInv (sendIfFull st size rs).state := by
  unfold sendIfFull
  by_cases hif : reqSizeLimit < st.bufferredSize + size ∨ st.events.length = reqEventsLimit
  · simpa [hif] using send_preserves_sortInv rs st h
  · simpa [hif] using h

theorem appendEvent_sortInv {st : PusherState} (h : SortInv st) (ce : InputLogEvent)
    (cbId : Nat) (size : Nat) (et : Int) :
    SortInv (appendEvent st ce cbId size et) := by
  intro hns
  have hns' : st.needSort = false ∧
      (match st.events.getLast? with
       | some last => decide (ce.timestamp < last.timestamp)
       | none => false) = false := by
    simpa [appendEvent, Bool.or_eq_false_iff] using hns
  show (appendEvent st ce cbId size et).events.Sorted tsLe
  have hev : (appendEvent st ce cbId size et).events = st.events ++ [ce] := by
    simp [appendEvent]
  rw [hev]
  apply sorted_append_one (h hns'.1)
  intro a ha
  cases hx : st.events.getLast? with
  | none =>
    rw [List.getLast?_eq_none_iff.1 hx] at ha
    cases ha
  | some last =>
    have hlt : ¬ ce.timestamp < last.timestamp := by
      have := hns'.2
      rw [hx] at this
      simpa using this
    exact le_trans (sorted_getLast?_le (h hns'.1) hx ha) (not_lt.1 hlt)

theorem step_preserves_sortInv (st : PusherState) (t : Trigger) (rs : List Response)
    (h : SortInv st) :
    (∀ c ∈ (step st t rs).calls, c.events.Sorted tsLe) ∧ SortInv (step st t rs).state := by
  cases t with
  | timer =>
    by_cases he : st.events.length ≠ 0
    · simpa [step, he] using send_preserves_sortInv rs st h
    · simpa [step, he] using h
  | event e nowMs =>
    have h1 := sendIfSpan_sortInv st (timeNs e.time) rs h
    have h2 : SortInv (convertEvent (sendIfSpan st (timeNs e.time) rs).state e nowMs).2 := by
      intro hns
      have hframe := convertEvent_state_frame (sendIfSpan st (timeNs e.time) rs).state e nowMs
      rw [hframe.1]
      exact h1.2 (by rw [← hframe.2.1]; exact hns)
    have h3 := sendIfFull_sortInv (convertEvent (sendIfSpan st (timeNs e.time) rs).state e nowMs).2
      ((convertEvent (sendIfSpan st (timeNs e.time) rs).state e nowMs).1.message.length +
        eventHeaderSize) (sendIfSpan st (timeNs e.time) rs).rs h2
    refine ⟨?_, ?_⟩
    · intro c hc
      simp only [step] at hc
      rcases List.mem_append.1 hc with hm | hm
      · exact h1.1 c hm
      · exact h3.1 c hm
    · simp only [step]
      exact appendEvent_sortInv h3.2 _ _ _ _

theorem run_preserves_sortInv (trigs : List Trigger) :
    ∀ (st : PusherState) (rs : List Response), SortInv st →
      (∀ c ∈ (run st trigs rs).calls, c.events.Sorted tsLe) ∧
        SortInv (run st trigs rs).state := by
  induction trigs with
  | nil =>
    intro st rs h
    exact ⟨by simp [run], by simpa [run] using h⟩
  | cons t ts ih =>
    intro st rs h
    have hs := step_preserves_sortInv st t rs h
    have hr := ih (step st t rs).state (step st t rs).rs hs.2
    refine ⟨?_, ?_⟩
    · intro c hc
      simp only [run] at hc
      rcases List.mem_append.1 hc with hm | hm
      · exact hs.1 c hm
      · exact hr.1 c hm
    · simpa [run] using hr.2

/-- Claim C4: in every execution of the dispatcher, every `PutLogEvents`
call carries events in non-decreasing timestamp order — when `needSort` is
set, `send` sorts (stably) before building the request; when it is unset,
the insertion order is already non-decreasing (second conjunct: the
dispatcher maintains that invariant, `needSort` being set exactly by the
appends that place a timestamp strictly below the last one). -/
theorem putLogEvents_sorted (trigs : List Trigger) (rs : List Response) :
    (∀ c ∈ (run initState trigs rs).calls, c.events.Sorted tsLe) ∧
    ((run initState trigs rs).state.needSort = false →
      (run initState trigs rs).state.events.Sorted tsLe) :=
  run_preserves_sortInv trigs initState rs (fun _ => by simp [initState])

/-- Witness for C4: the call of a concrete one-event trace is sorted. -/
theorem putLogEvents_sorted_witness :
    callW ∈ (run initState [trigA, Trigger.timer] [Response.success none]).calls ∧
    callW.events.Sorted tsLe :=
  ⟨by decide,
    (putLogEvents_sorted [trigA, Trigger.timer] [Response.success none]).1 callW (by decide)⟩

/-! ### The request-limit violation trace (C1) -/

theorem getLast?_replicate {α : Type} (a : α) (n : Nat) :
    (List.replicate n a).getLast? = if n = 0 then none else some a := by
  induction n with
  | zero => rfl
  | succ k ih =>
    cases k with
    | zero => rfl
    | succ m =>
      rw [List.replicate_succ, List.replicate_succ, List.getLast?_cons_cons,
        ← List.replicate_succ, ih]
      simp

theorem convertEvent_evA (st : PusherState) (nowMs : Int) :
    convertEvent st evA nowMs = (ceA, { st with lastValidTime := tAms }) := by
  have htd : Int.tdiv tA nsPerMs = tAms := by decide
  simp [convertEvent, evA, ceA, msgSizeLimit, htd]

theorem sendIfSpan_stateN (k : Nat) (rs : List Response) :
    sendIfSpan (stateN k) tA rs = ⟨stateN k, [], [], rs, true, true⟩ := by
  unfold sendIfSpan
  have hcond : ((match (stateN k).minT with
        | some m => decide (h24 < tA - m) | none => false) ||
      (match (stateN k).maxT with
        | some mx => decide (h24 < mx - tA) | none => false)) = false := by
    by_cases h0 : k = 0
    · subst h0
      decide
    · simp only [stateN, if_neg h0]
      decide
  rw [hcond]
  simp

theorem sendIfFull_stateN (k : Nat) (rs : List Response) (hk : k < reqEventsLimit) :
    sendIfFull { stateN k with lastValidTime := tAms }
        (ceA.message.length + eventHeaderSize) rs =
      ⟨{ stateN k with lastValidTime := tAms }, [], [], rs, true, true⟩ := by
  have hcond : ¬ (reqSizeLimit <
      ({ stateN k with lastValidTime := tAms }).bufferredSize +
        (ceA.message.length + eventHeaderSize) ∨
      ({ stateN k with lastValidTime := tAms }).events.length = reqEventsLimit) := by
    simp only [stateN, ceA, List.length_nil, List.length_replicate, reqSizeLimit,
      reqEventsLimit, eventHeaderSize]
    simp only [reqEventsLimit] at hk
    omega
  unfold sendIfFull
  rw [if_neg hcond]

theorem appendEvent_stateN (k : Nat) :
    appendEvent { stateN k with lastValidTime := tAms } ceA 0
        (ceA.message.length + eventHeaderSize) tA = stateN (k + 1) := by
  by_cases h0 : k = 0
  · subst h0
    decide
  · have hlt : decide (tAms < tAms) = false := by decide
    have hti : ¬ (tA < tA) := lt_irrefl tA
    simp [appendEvent, stateN, h0, getLast?_replicate, hlt, hti, List.replicate_succ']
    simp only [ceA, eventHeaderSize, List.length_nil]
    omega

theorem step_trigA (k : Nat) (rs : List Response) (hk : k < reqEventsLimit) :
    step (stateN k) trigA rs = ⟨stateN (k + 1), [], [], rs, true, true⟩ := by
  have h2 := convertEvent_evA (stateN k) 0
  simp only [evA] at h2
  simp only [step, trigA, evA, timeNs]
  rw [sendIfSpan_stateN k rs]
  simp only [h2]
  rw [sendIfFull_stateN k rs hk]
  simp only [appendEvent_stateN k]
  rfl

theorem run_trigA (n : Nat) : ∀ (k : Nat) (rs : List Response), k + n ≤ reqEventsLimit →
    run (stateN k) (List.replicate n trigA) rs = ⟨stateN (k + n), [], [], rs, true, true⟩ := by
  induction n with
  | zero =>
    intro k rs _
    simp [run]
  | succ m ih =>
    intro k rs h
    rw [List.replicate_succ]
    simp only [run]
    rw [step_trigA k rs (by omega)]
    simp only [ih (k + 1) rs (by omega)]
    have hk' : k + 1 + m = k + (m + 1) := by omega
    simp [hk']

theorem run_append (st : PusherState) (l1 l2 : List Trigger) (rs : List Response) :
    run st (l1 ++ l2) rs =
      ⟨(run (run st l1 rs).state l2 (run st l1 rs).rs).state,
        (run st l1 rs).calls ++ (run (run st l1 rs).state l2 (run st l1 rs).rs).calls,
        (run st l1 rs).fired ++ (run (run st l1 rs).state l2 (run st l1 rs).rs).fired,
        (run (run st l1 rs).state l2 (run st l1 rs).rs).rs,
        (run st l1 rs).ok && (run (run st l1 rs).state l2 (run st l1 rs).rs).ok,
        (run st l1 rs).allCleared &&
          (run (run st l1 rs).state l2 (run st l1 rs).rs).allCleared⟩ := by
  induction l1 generalizing st rs with
  | nil => simp [run]
  | cons t ts ih => simp [run, ih, List.append_assoc, Bool.and_assoc]

theorem sendIfFull_stateN_full (rs : List Response) :
    sendIfFull { stateN reqEventsLimit with lastValidTime := tAms }
        (ceA.message.length + eventHeaderSize) (Response.invalidSeqToken none :: rs) =
      ⟨{ stateN reqEventsLimit with lastValidTime := tAms },
        [entryCall { stateN reqEventsLimit with lastValidTime := tAms }], [], rs, true,
        false⟩ := by
  have hcond : reqSizeLimit <
      ({ stateN reqEventsLimit with lastValidTime := tAms }).bufferredSize +
        (ceA.message.length + eventHeaderSize) ∨
      ({ stateN reqEventsLimit with lastValidTime := tAms }).events.length =
        reqEventsLimit := by
    right
    simp [stateN]
  have hsi : sortIfNeeded { stateN reqEventsLimit with lastValidTime := tAms } =
      ({ stateN reqEventsLimit with lastValidTime := tAms } : PusherState).events := by
    simp [sortIfNeeded, stateN]
  have hne : ({ stateN reqEventsLimit with lastValidTime := tAms } : PusherState).events
      ≠ [] := by
    apply List.ne_nil_of_length_pos
    have hlen : (({ stateN reqEventsLimit with lastValidTime := tAms } :
        PusherState).events).length = reqEventsLimit := by
      simp [stateN]
    rw [hlen]
    decide
  unfold sendIfFull
  rw [if_pos hcond]
  simp only [send, hsi]
  simp [decide_eq_false hne]

theorem step_trigA_full (rs : List Response) :
    step (stateN reqEventsLimit) trigA (Response.invalidSeqToken none :: rs) =
      ⟨stateN (reqEventsLimit + 1),
        [entryCall { stateN reqEventsLimit with lastValidTime := tAms }], [], rs, true,
        false⟩ := by
  have h2 := convertEvent_evA (stateN reqEventsLimit) 0
  simp only [evA] at h2
  simp only [step, trigA, evA, timeNs]
  rw [sendIfSpan_stateN reqEventsLimit (Response.invalidSeqToken none :: rs)]
  simp only [h2]
  rw [sendIfFull_stateN_full rs]
  simp only [appendEvent_stateN reqEventsLimit]
  rfl

theorem step_timer_full (rs : List Response) :
    step (stateN (reqEventsLimit + 1)) Trigger.timer (Response.invalidSeqToken none :: rs) =
      ⟨stateN (reqEventsLimit + 1), [entryCall (stateN (reqEventsLimit + 1))], [], rs,
        true, false⟩ := by
  have hlen : (stateN (reqEventsLimit + 1)).events.length ≠ 0 := by
    simp [stateN]
  have hsi : sortIfNeeded (stateN (reqEventsLimit + 1)) =
      (stateN (reqEventsLimit + 1)).events := by
    simp [sortIfNeeded, stateN]
  have hne : (stateN (reqEventsLimit + 1)).events ≠ [] := by
    apply List.ne_nil_of_length_pos
    simp [stateN]
  simp only [step, if_pos hlen, send, hsi]
  simp [decide_eq_false hne]

/-- Claim C1, evaluated at a failing input: after 10000 buffered events the
10001st delivery triggers the count flush; the sink answers
`InvalidSequenceTokenException` without an expected token, so `send`
returns with the buffer retained, and the dispatcher appends the event
anyway; the next timer flush then invokes `PutLogEvents` with 10001 events,
exceeding `reqEventsLimit` — contradicting the claim. -/
theorem events_limit_violation :
    reqEventsLimit <
      (((run initState trigsC1 rsC1).calls.getD 1 default).events.length) := by
  have hrw : trigsC1 = List.replicate reqEventsLimit trigA ++ [trigA, Trigger.timer] := rfl
  have h0 : initState = stateN 0 := rfl
  have hrs : rsC1 = Response.invalidSeqToken none :: Response.invalidSeqToken none :: [] :=
    rfl
  rw [hrw, h0, hrs, run_append,
    run_trigA reqEventsLimit 0 (Response.invalidSeqToken none ::
      Response.invalidSeqToken none :: []) (by omega)]
  simp only [Nat.zero_add, run]
  rw [step_trigA_full [Response.invalidSeqToken none]]
  simp only []
  rw [step_timer_full []]
  simp only [List.nil_append, List.append_nil, List.cons_append, List.singleton_append,
    List.getD_cons_succ, List.getD_cons_zero]
  have hlen : (entryCall (stateN (reqEventsLimit + 1))).events.length =
      reqEventsLimit + 1 := by
    simp [entryCall, sortIfNeeded, stateN]
  rw [hlen]
  omega

end CwPusher
